/-
Verification of the rustego LSB steganography codec (src/stego_image.rs).

The codec hides a byte payload in the 2 low bits of the channels of an
RGBA pixel buffer.  One pixel (4 channels × 2 bits) carries one envelope
byte.  The envelope is `length (8 LE bytes) ‖ checksum (8 LE bytes) ‖
payload`, where the checksum is Rust's `DefaultHasher` (SipHash-1-3 with
zero keys) over the payload bytes.

Shallow embedding conventions:
* a pixel buffer is a `StegoImage`: a width, a height, and the flat list
  of channel bytes (each a `Nat` below 256, 4 per pixel), mirroring
  `image::ImageBuffer<Rgba<u8>, Vec<u8>>`;
* `u8`/`u64`/`usize` arithmetic is `Nat` arithmetic with explicit masks
  (`&&& 0xFC` for the wrapping `&= !0x3`, `% 2^64` where u64 wraps);
* `insert_data` takes `&mut self`, so it is embedded in state-passing
  style: it returns the (possibly mutated) image together with the
  `Result`; `extract_data` takes `&self` and returns only the `Result`;
* fallible results are `Except StegoError _`.
-/
import Mathlib

set_option maxRecDepth 4000

/-- The five error variants of `enum StegoError` in src/stego_image.rs. -/
inductive StegoError where
  | NotEnoughSpace
  | NothingToInsert
  | InvalidDataLength
  | TooSmallImage
  | InvalidHashCheck
deriving DecidableEq

/-- The string written by `impl Display for StegoError` (the argument of
`f.write_str` for each variant), transcribed verbatim from the source —
including the fact that `InvalidHashCheck` carries the same text as
`TooSmallImage`. -/
def StegoError.message : StegoError → String
  | .NotEnoughSpace => "Not enough space in image to insert requested data"
  | .NothingToInsert => "Supplied data contains zero bytes"
  | .InvalidDataLength => "Image contains invalid data length marker"
  | .TooSmallImage => "Image is too small to contain any data"
  | .InvalidHashCheck => "Image is too small to contain any data"

/-- A 4-channel 8-bit pixel buffer: `width`/`height` mirror
`img.width()`/`img.height()`, `data` is the flat container of channel
bytes (`Vec<u8>` of length `4 * width * height`). -/
structure StegoImage where
  width : Nat
  height : Nat
  data : List Nat
deriving DecidableEq

/-- Well-formedness of the buffer as guaranteed by the `image` crate and
the `u8`/`u32` types: dimensions fit in `u32`, the container holds
exactly 4 channel bytes per pixel, and every channel byte fits in `u8`. -/
def StegoImage.Wf (img : StegoImage) : Prop :=
  img.width < 2 ^ 32 ∧ img.height < 2 ^ 32 ∧
    img.data.length = 4 * (img.width * img.height) ∧ ∀ b ∈ img.data, b < 256

instance (img : StegoImage) : Decidable img.Wf := by
  unfold StegoImage.Wf; infer_instance

/-- `Self::HEADER_SIZE = size_of::<usize>() + size_of::<u64>()` on the
64-bit target: 8 + 8 = 16 bytes. -/
def HEADER_SIZE : Nat := 8 + 8

/-- `avaliable(&self)`: `(width*height).checked_sub(HEADER_SIZE).unwrap_or_default()`.
`Nat` subtraction is exactly this saturating subtraction. -/
def StegoImage.avaliable (img : StegoImage) : Nat :=
  img.width * img.height - HEADER_SIZE

/-- Little-endian byte decoding, as in `usize::from_le_bytes` /
`u64::from_le_bytes` (missing high bytes read as 0). -/
def bytesToNatLE : List Nat → Nat
  | [] => 0
  | b :: bs => b + 256 * bytesToNatLE bs

/-- Little-endian byte encoding: `n.to_le_bytes()` truncated/padded to
`k` bytes (`k = 8` for both `usize` and `u64` on the 64-bit target). -/
def natToLeBytes : Nat → Nat → List Nat
  | _, 0 => []
  | n, k + 1 => n % 256 :: natToLeBytes (n / 256) k

/- ---------------------------------------------------------------------
SipHash-1-3 with zero keys: the algorithm behind
`std::collections::hash_map::DefaultHasher`, which `calculate_hash`
drives one payload byte at a time (`byte.hash(&mut hasher)` is
`write_u8`, so the processed stream is exactly the payload bytes).
--------------------------------------------------------------------- -/

/-- The four 64-bit words of the SipHash internal state. -/
structure SipState where
  v0 : Nat
  v1 : Nat
  v2 : Nat
  v3 : Nat

/-- Truncation to 64 bits (`u64` wrapping). -/
def mask64 (x : Nat) : Nat := x % 2 ^ 64

/-- 64-bit left rotation. -/
def rotl64 (x b : Nat) : Nat := mask64 (x <<< b) ||| (x >>> (64 - b))

/-- One SIPROUND on the four state words (all additions wrap at 2^64). -/
def sipRound (s : SipState) : SipState :=
  let v0 := mask64 (s.v0 + s.v1)
  let v1 := rotl64 s.v1 13
  let v1 := v1 ^^^ v0
  let v0 := rotl64 v0 32
  let v2 := mask64 (s.v2 + s.v3)
  let v3 := rotl64 s.v3 16
  let v3 := v3 ^^^ v2
  let v0 := mask64 (v0 + v3)
  let v3 := rotl64 v3 21
  let v3 := v3 ^^^ v0
  let v2 := mask64 (v2 + v1)
  let v1 := rotl64 v1 17
  let v1 := v1 ^^^ v2
  let v2 := rotl64 v2 32
  ⟨v0, v1, v2, v3⟩

/-- Absorb one 64-bit message block (SipHash-1-3: one round per block). -/
def sipBlock (s : SipState) (m : Nat) : SipState :=
  let s := { s with v3 := s.v3 ^^^ m }
  let s := sipRound s
  { s with v0 := s.v0 ^^^ m }

/-- Absorb every complete 8-byte block of the message, little-endian. -/
def sipBlocks : SipState → List Nat → SipState
  | s, b0 :: b1 :: b2 :: b3 :: b4 :: b5 :: b6 :: b7 :: rest =>
      sipBlocks (sipBlock s (bytesToNatLE [b0, b1, b2, b3, b4, b5, b6, b7])) rest
  | s, _ => s

/-- The trailing bytes of the message after all complete 8-byte blocks. -/
def sipRemainder : List Nat → List Nat
  | _ :: _ :: _ :: _ :: _ :: _ :: _ :: _ :: rest => sipRemainder rest
  | rest => rest

/-- `calculate_hash(data)`: feed each byte of `data` to a fresh
`DefaultHasher` (SipHash-1-3, keys 0) and `finish()`.  The initial state
words are the SipHash constants XORed with the zero keys; the final
block packs the message length (mod 256) in the top byte above the
little-endian remainder bytes.  The source wraps the result in `Ok` but
can never fail, so the embedding returns the `u64` directly. -/
def calculate_hash (data : List Nat) : Nat :=
  let s : SipState :=
    ⟨0x736f6d6570736575, 0x646f72616e646f6d, 0x6c7967656e657261, 0x7465646279746573⟩
  let s := sipBlocks s data
  let b := ((data.length % 256) <<< 56) ||| bytesToNatLE (sipRemainder data)
  let s := sipBlock s b
  let s := { s with v2 := s.v2 ^^^ 0xff }
  let s := sipRound (sipRound (sipRound s))
  mask64 (s.v0 ^^^ s.v1 ^^^ s.v2 ^^^ s.v3)

/- ---------------------------------------------------------------------
Embedding of the pixel loops.
--------------------------------------------------------------------- -/

/-- The body of the channel loop in `insert_data`:
`*channel &= !0x3; *channel |= *data >> (i << 1) & 0x3;`
(`!0x3` on `u8` is `0xFC`; everything stays below 256). -/
def writeChannel (c b i : Nat) : Nat :=
  (c &&& 0xFC) ||| ((b >>> (i <<< 1)) &&& 0x3)

/-- The pixel loop of `insert_data`:
`for (pixel, data) in self.img.chunks_exact_mut(4).zip(data)` — each
complete 4-channel chunk receives one envelope byte; the loop stops at
the shorter of the two iterators, leaving all remaining channels (and
any trailing incomplete chunk) untouched. -/
def writePixels : List Nat → List Nat → List Nat
  | c0 :: c1 :: c2 :: c3 :: cs, b :: bs =>
      writeChannel c0 b 0 :: writeChannel c1 b 1 :: writeChannel c2 b 2 ::
        writeChannel c3 b 3 :: writePixels cs bs
  | cs, _ => cs

/-- Reassembling one byte from the four channels of a pixel:
`byte |= (channel & 0x3) << (j << 1)` for `j = 0, 1, 2, 3` starting
from `0u8` (the shift amounts `j << 1` are 0, 2, 4, 6). -/
def readByte (c0 c1 c2 c3 : Nat) : Nat :=
  ((c0 &&& 0x3) <<< 0) ||| ((c1 &&& 0x3) <<< 2) |||
    ((c2 &&& 0x3) <<< 4) ||| ((c3 &&& 0x3) <<< 6)

/-- Reading `n` bytes from the channel stream, as the extraction loops
do: a zero-initialised output buffer of `n` bytes is filled from the
complete 4-channel chunks (`chunks_exact(4)` yields no partial chunk);
if the chunks run out, the remaining output bytes stay 0. -/
def readBytes : List Nat → Nat → List Nat
  | _, 0 => []
  | c0 :: c1 :: c2 :: c3 :: cs, n + 1 => readByte c0 c1 c2 c3 :: readBytes cs n
  | _, n + 1 => List.replicate (n + 1) 0

/- ---------------------------------------------------------------------
The codec operations.
--------------------------------------------------------------------- -/

/-- `insert_data(&mut self, data)`, in state-passing style: the returned
image is `self` after the call.  Both early `return Err(..)` paths fire
before any write to the buffer, so they return the image unchanged; the
success path writes `len.to_le_bytes() ‖ hash.to_le_bytes() ‖ data`
into the pixels. -/
def StegoImage.insert_data (img : StegoImage) (data : List Nat) :
    StegoImage × Except StegoError Unit :=
  if data.length = 0 then (img, .error .NothingToInsert)
  else if img.avaliable < data.length then (img, .error .NotEnoughSpace)
  else
    let data_len_bytes := natToLeBytes data.length 8
    let hash_bytes := natToLeBytes (calculate_hash data) 8
    let envelope := data_len_bytes ++ hash_bytes ++ data
    ({ img with data := writePixels img.data envelope }, .ok ())

/-- `extract_size(&self)`: decode `usize` little-endian from the first 8
pixels, then fail with `InvalidDataLength` when it exceeds
`avaliable()`. -/
def StegoImage.extract_size (img : StegoImage) : Except StegoError Nat :=
  let extracted_size := bytesToNatLE (readBytes img.data 8)
  if extracted_size > img.avaliable then .error .InvalidDataLength
  else .ok extracted_size

/-- `extract_hash(&self)`: decode `u64` little-endian from pixels 8..16,
i.e. after skipping `size_of::<usize>()` chunks = 32 channel bytes.
Always succeeds. -/
def StegoImage.extract_hash (img : StegoImage) : Except StegoError Nat :=
  .ok (bytesToNatLE (readBytes (img.data.drop 32) 8))

/-- `extract_data(&self)`: `chunks_exact(4).len()` is
`data.length / 4`; fail with `TooSmallImage` below `HEADER_SIZE`
pixels, then extract and validate the size, extract the hash, read the
payload from the pixels after the header (skipping `HEADER_SIZE` chunks
= 64 channel bytes), and fail with `InvalidHashCheck` unless the
recomputed payload hash matches.  Takes `&self`: the buffer is never
mutated, which the embedding reflects by consuming `img` immutably. -/
def StegoImage.extract_data (img : StegoImage) : Except StegoError (List Nat) :=
  if img.data.length / 4 < HEADER_SIZE then .error .TooSmallImage
  else
    match img.extract_size with
    | .error e => .error e
    | .ok extracted_size =>
      match img.extract_hash with
      | .error e => .error e
      | .ok extracted_hash =>
        let data := readBytes (img.data.drop (4 * HEADER_SIZE)) extracted_size
        if calculate_hash data ≠ extracted_hash then .error .InvalidHashCheck
        else .ok data

deriving instance DecidableEq for Except

/- ---------------------------------------------------------------------
Helper lemmas: bit-level inversion of the 2-bit channel packing, shape
and frame properties of the pixel loops, and little-endian coding.
--------------------------------------------------------------------- -/

theorem writeChannel_and_three (c b i : Nat) :
    writeChannel c b i &&& 0x3 = (b >>> (i <<< 1)) &&& 0x3 := by
  have h1 : (c &&& 0xFC) &&& 0x3 = 0 := by
    rw [Nat.and_assoc, show (0xFC &&& 0x3 : Nat) = 0 from rfl, Nat.and_zero]
  have h2 : ((b >>> (i <<< 1)) &&& 0x3) &&& 0x3 = (b >>> (i <<< 1)) &&& 0x3 := by
    rw [Nat.and_assoc, show (0x3 &&& 0x3 : Nat) = 0x3 from rfl]
  unfold writeChannel
  rw [Nat.and_comm _ 0x3, Nat.and_or_distrib_left,
    Nat.and_comm 0x3 (c &&& 0xFC), Nat.and_comm 0x3 ((b >>> (i <<< 1)) &&& 0x3),
    h1, h2, Nat.zero_or]

theorem writeChannel_and_high (c b i : Nat) :
    writeChannel c b i &&& 0xFC = c &&& 0xFC := by
  have h1 : (c &&& 0xFC) &&& 0xFC = c &&& 0xFC := by
    rw [Nat.and_assoc, show (0xFC &&& 0xFC : Nat) = 0xFC from rfl]
  have h2 : ((b >>> (i <<< 1)) &&& 0x3) &&& 0xFC = 0 := by
    rw [Nat.and_assoc, show (0x3 &&& 0xFC : Nat) = 0 from rfl, Nat.and_zero]
  unfold writeChannel
  rw [Nat.and_comm _ 0xFC, Nat.and_or_distrib_left,
    Nat.and_comm 0xFC (c &&& 0xFC), Nat.and_comm 0xFC ((b >>> (i <<< 1)) &&& 0x3),
    h1, h2, Nat.or_zero]

theorem readByte_recombine :
    ∀ b : Fin 256,
      (((b.val >>> (0 <<< 1)) &&& 0x3) <<< 0) ||| (((b.val >>> (1 <<< 1)) &&& 0x3) <<< 2) |||
        (((b.val >>> (2 <<< 1)) &&& 0x3) <<< 4) ||| (((b.val >>> (3 <<< 1)) &&& 0x3) <<< 6) = b.val := by
  decide

theorem readByte_writePixel (c0 c1 c2 c3 b : Nat) (hb : b < 256) :
    readByte (writeChannel c0 b 0) (writeChannel c1 b 1) (writeChannel c2 b 2)
      (writeChannel c3 b 3) = b := by
  unfold readByte
  rw [writeChannel_and_three c0 b 0, writeChannel_and_three c1 b 1,
    writeChannel_and_three c2 b 2, writeChannel_and_three c3 b 3]
  exact readByte_recombine ⟨b, hb⟩

theorem writeChannel_lt (c b i : Nat) (hc : c < 256) : writeChannel c b i < 256 := by
  have h256 : (256 : Nat) = 2 ^ 8 := by norm_num
  unfold writeChannel
  rw [h256] at hc ⊢
  exact Nat.or_lt_two_pow (Nat.lt_of_le_of_lt Nat.and_le_left hc)
    (Nat.lt_of_le_of_lt Nat.and_le_right (by norm_num))

theorem writePixels_nil_right (cs : List Nat) : writePixels cs [] = cs := by
  rcases cs with _ | ⟨c0, _ | ⟨c1, _ | ⟨c2, _ | ⟨c3, cs⟩⟩⟩⟩ <;> rfl

theorem readBytes_zero (cs : List Nat) : readBytes cs 0 = [] := by
  rcases cs with _ | ⟨c0, _ | ⟨c1, _ | ⟨c2, _ | ⟨c3, cs⟩⟩⟩⟩ <;> rfl

theorem writePixels_drop4 (cs es : List Nat) :
    (writePixels cs es).drop 4 = writePixels (cs.drop 4) (es.drop 1) := by
  cases es with
  | nil => simp [writePixels_nil_right]
  | cons b bs => rcases cs with _ | ⟨c0, _ | ⟨c1, _ | ⟨c2, _ | ⟨c3, cs⟩⟩⟩⟩ <;> rfl

theorem writePixels_drop (k : Nat) (cs es : List Nat) :
    (writePixels cs es).drop (4 * k) = writePixels (cs.drop (4 * k)) (es.drop k) := by
  induction k generalizing cs es with
  | zero => simp
  | succ k ih =>
    have h4 : 4 * (k + 1) = 4 + 4 * k := by ring
    rw [h4, ← List.drop_drop, ← List.drop_drop, writePixels_drop4, ih,
      List.drop_drop, List.drop_drop]
    have h1 : (1 : Nat) + k = k + 1 := by ring
    rw [h1]

theorem readBytes_writePixels (n : Nat) (cs es : List Nat)
    (hes : ∀ b ∈ es, b < 256) (hn : n ≤ es.length) (hlen : 4 * n ≤ cs.length) :
    readBytes (writePixels cs es) n = es.take n := by
  induction n generalizing cs es with
  | zero => simp [readBytes_zero]
  | succ n ih =>
    cases es with
    | nil => simp at hn
    | cons b bs =>
      rcases cs with _ | ⟨c0, _ | ⟨c1, _ | ⟨c2, _ | ⟨c3, cs⟩⟩⟩⟩ <;>
        simp only [List.length_nil, List.length_cons] at hlen <;> try omega
      have hb : b < 256 := hes b (by simp)
      show readByte (writeChannel c0 b 0) (writeChannel c1 b 1) (writeChannel c2 b 2)
          (writeChannel c3 b 3) :: readBytes (writePixels cs bs) n = b :: bs.take n
      rw [readByte_writePixel c0 c1 c2 c3 b hb,
        ih cs bs (fun x hx => hes x (by simp [hx])) (by simpa using hn) (by omega)]

theorem writePixels_getD_high (es cs : List Nat) (j : Nat) :
    (writePixels cs es).getD j 0 &&& 0xFC = cs.getD j 0 &&& 0xFC := by
  induction es generalizing cs j with
  | nil => rw [writePixels_nil_right]
  | cons b bs ih =>
    rcases cs with _ | ⟨c0, _ | ⟨c1, _ | ⟨c2, _ | ⟨c3, cs⟩⟩⟩⟩
    · rfl
    · rfl
    · rfl
    · rfl
    · rcases j with _ | _ | _ | _ | j
      · exact writeChannel_and_high c0 b 0
      · exact writeChannel_and_high c1 b 1
      · exact writeChannel_and_high c2 b 2
      · exact writeChannel_and_high c3 b 3
      · show (writePixels cs bs).getD j 0 &&& 0xFC = cs.getD j 0 &&& 0xFC
        exact ih cs j

theorem writePixels_getD_beyond (es cs : List Nat) (j : Nat) (h : 4 * es.length ≤ j) :
    (writePixels cs es).getD j 0 = cs.getD j 0 := by
  induction es generalizing cs j with
  | nil => rw [writePixels_nil_right]
  | cons b bs ih =>
    rcases cs with _ | ⟨c0, _ | ⟨c1, _ | ⟨c2, _ | ⟨c3, cs⟩⟩⟩⟩
    · rfl
    · rfl
    · rfl
    · rfl
    · simp only [List.length_cons] at h
      rcases j with _ | _ | _ | _ | j
      · omega
      · omega
      · omega
      · omega
      · show (writePixels cs bs).getD j 0 = cs.getD j 0
        exact ih cs j (by omega)

theorem natToLeBytes_length (k : Nat) : ∀ n, (natToLeBytes n k).length = k := by
  induction k with
  | zero => intro n; rfl
  | succ k ih => intro n; simp [natToLeBytes, ih]

theorem natToLeBytes_lt (k : Nat) : ∀ n, ∀ b ∈ natToLeBytes n k, b < 256 := by
  induction k with
  | zero => intro n b hb; simp [natToLeBytes] at hb
  | succ k ih =>
    intro n b hb
    simp only [natToLeBytes, List.mem_cons] at hb
    rcases hb with h | h
    · exact h ▸ Nat.mod_lt _ (by norm_num)
    · exact ih _ b h

theorem bytesToNatLE_natToLeBytes (k : Nat) : ∀ n, bytesToNatLE (natToLeBytes n k) = n % 2 ^ (8 * k) := by
  induction k with
  | zero => intro n; simp [natToLeBytes, bytesToNatLE, Nat.mod_one]
  | succ k ih =>
    intro n
    have hpow : (2 : Nat) ^ (8 * (k + 1)) = 256 * 2 ^ (8 * k) := by
      rw [show 8 * (k + 1) = 8 + 8 * k by ring, pow_add]
      norm_num
    rw [hpow, Nat.mod_mul]
    simp [natToLeBytes, bytesToNatLE, ih]

theorem calculate_hash_lt (data : List Nat) : calculate_hash data < 2 ^ 64 := by
  unfold calculate_hash mask64
  exact Nat.mod_lt _ (by norm_num)

theorem writePixels_length (cs es : List Nat) : (writePixels cs es).length = cs.length := by
  induction es generalizing cs with
  | nil => rw [writePixels_nil_right]
  | cons b bs ih =>
    rcases cs with _ | ⟨c0, _ | ⟨c1, _ | ⟨c2, _ | ⟨c3, cs⟩⟩⟩⟩
    · rfl
    · rfl
    · rfl
    · rfl
    · show (writeChannel c0 b 0 :: writeChannel c1 b 1 :: writeChannel c2 b 2 ::
          writeChannel c3 b 3 :: writePixels cs bs).length = (c0 :: c1 :: c2 :: c3 :: cs).length
      simp [ih]

theorem insert_data_ok (img : StegoImage) (p : List Nat)
    (hne : ¬ p.length = 0) (hcap : ¬ img.avaliable < p.length) :
    img.insert_data p =
      ({ img with data := (writePixels img.data
          (natToLeBytes p.length 8 ++ natToLeBytes (calculate_hash p) 8 ++ p)) }, .ok ()) := by
  unfold StegoImage.insert_data
  rw [if_neg hne, if_neg hcap]

/-- Claim C1: for every well-formed pixel buffer and every non-empty byte
sequence `p` with `p.length ≤ avaliable(buffer)`, `insert_data(buffer, p)`
succeeds, and `extract_data` on the mutated buffer returns exactly `p`. -/
theorem insert_extract_roundtrip (img : StegoImage) (p : List Nat)
    (hwf : img.Wf) (hp : ∀ b ∈ p, b < 256) (hne : p ≠ [])
    (hcap : p.length ≤ img.avaliable) :
    (img.insert_data p).2 = .ok () ∧ (img.insert_data p).1.extract_data = .ok p := by
  obtain ⟨hW, hH, hL, hB⟩ := hwf
  have hplen : ¬ p.length = 0 := fun h => hne (List.length_eq_zero.mp h)
  have hcap' : ¬ img.avaliable < p.length := by omega
  have hwh : 17 ≤ img.width * img.height := by
    unfold StegoImage.avaliable HEADER_SIZE at hcap; omega
  have hwh64 : img.width * img.height < 2 ^ 64 := by
    calc img.width * img.height < 2 ^ 32 * 2 ^ 32 := Nat.mul_lt_mul'' hW hH
    _ = 2 ^ 64 := by norm_num
  have hplt : p.length < 2 ^ 64 := by
    unfold StegoImage.avaliable HEADER_SIZE at hcap; omega
  have hins := insert_data_ok img p hplen hcap'
  set A := natToLeBytes p.length 8 with hA
  set B := natToLeBytes (calculate_hash p) 8 with hB2
  set env := A ++ B ++ p with henvdef
  have hAlen : A.length = 8 := natToLeBytes_length 8 _
  have hBlen : B.length = 8 := natToLeBytes_length 8 _
  have henvlen : env.length = 16 + p.length := by
    simp [henvdef, hAlen, hBlen]; omega
  have henvlt : ∀ b ∈ env, b < 256 := by
    intro b hb
    simp only [henvdef, List.mem_append] at hb
    rcases hb with (h | h) | h
    · exact natToLeBytes_lt 8 _ b h
    · exact natToLeBytes_lt 8 _ b h
    · exact hp b h
  have hdlen : (writePixels img.data env).length = 4 * (img.width * img.height) := by
    rw [writePixels_length, hL]
  refine ⟨by rw [hins], ?_⟩
  rw [hins]
  set img2 : StegoImage := { img with data := writePixels img.data env } with himg2
  show StegoImage.extract_data img2 = Except.ok p
  -- the three extraction stages
  have hsize : img2.extract_size = .ok p.length := by
    unfold StegoImage.extract_size
    have hread : readBytes img2.data 8 = env.take 8 :=
      readBytes_writePixels 8 img.data env henvlt (by omega) (by rw [hL]; omega)
    have htake : env.take 8 = A := by
      rw [henvdef, List.append_assoc]
      exact List.take_left' hAlen
    have hdec : bytesToNatLE (readBytes img2.data 8) = p.length := by
      rw [hread, htake, hA, bytesToNatLE_natToLeBytes]
      exact Nat.mod_eq_of_lt (by omega)
    rw [hdec]
    have : ¬ p.length > img2.avaliable := by
      simp only [himg2, StegoImage.avaliable] at hcap ⊢
      omega
    rw [if_neg this]
  have hhash : img2.extract_hash = .ok (calculate_hash p) := by
    unfold StegoImage.extract_hash
    have hdrop : img2.data.drop 32 = writePixels (img.data.drop 32) (env.drop 8) := by
      have h := writePixels_drop 8 img.data env
      norm_num at h
      exact h
    have hread : readBytes (writePixels (img.data.drop 32) (env.drop 8)) 8 = (env.drop 8).take 8 :=
      readBytes_writePixels 8 _ _
        (fun b hb => henvlt b (List.drop_subset _ _ hb))
        (by simp [henvlen]; omega) (by simp [hL]; omega)
    have hdrop8 : env.drop 8 = B ++ p := by
      rw [henvdef, List.append_assoc]
      exact List.drop_left' hAlen
    have htake : (B ++ p).take 8 = B := List.take_left' hBlen
    rw [hdrop, hread, hdrop8, htake, hB2, bytesToNatLE_natToLeBytes]
    rw [Nat.mod_eq_of_lt (by have := calculate_hash_lt p; omega)]
  have hpay : readBytes (img2.data.drop (4 * HEADER_SIZE)) p.length = p := by
    have hdrop : img2.data.drop (4 * HEADER_SIZE) =
        writePixels (img.data.drop 64) (env.drop 16) := by
      have h := writePixels_drop 16 img.data env
      norm_num at h
      show img2.data.drop (4 * (8 + 8)) = _
      norm_num
      exact h
    have hdrop16 : env.drop 16 = p := by
      rw [henvdef]
      exact List.drop_left' (by simp [hAlen, hBlen])
    rw [hdrop, hdrop16]
    have := readBytes_writePixels p.length (img.data.drop 64) p hp le_rfl
      (by simp [hL]; unfold StegoImage.avaliable HEADER_SIZE at hcap; omega)
    rw [this, List.take_length]
  unfold StegoImage.extract_data
  have hlt : ¬ img2.data.length / 4 < HEADER_SIZE := by
    show ¬ (writePixels img.data env).length / 4 < HEADER_SIZE
    rw [hdlen]; unfold HEADER_SIZE; omega
  rw [if_neg hlt, hsize, hhash]
  simp [hpay]

/- ---------------------------------------------------------------------
Concrete buffers used to instantiate theorems with hypotheses.
--------------------------------------------------------------------- -/

/-- A 17×1 all-zero buffer: 17 pixels, capacity 1 byte. -/
def exImg : StegoImage := ⟨17, 1, List.replicate 68 0⟩

/-- A 4×4 all-0xFF buffer: 16 pixels, capacity 0, whose low bits decode
to the length marker `2^64 - 1`. -/
def fullImg : StegoImage := ⟨4, 4, List.replicate 64 255⟩

/-- The 17×1 zero buffer after embedding the one-byte payload `[0x41]`. -/
def stegoImg : StegoImage := (exImg.insert_data [65]).1

/-- A 4×4 buffer whose low bits encode the envelope header `length = 0`,
`checksum = calculate_hash []`, over an all-zero background. -/
def emptyEnvImg : StegoImage :=
  ⟨4, 4, writePixels (List.replicate 64 0) (natToLeBytes 0 8 ++ natToLeBytes (calculate_hash []) 8)⟩

theorem insert_extract_roundtrip_witness :
    ([65] : List Nat) ≠ [] ∧ (exImg.insert_data [65]).1.extract_data = .ok [65] :=
  ⟨by decide,
    (insert_extract_roundtrip exImg [65] (by decide) (by decide) (by decide) (by decide)).2⟩

/-- Claim C2: after a successful `insert_data`, every channel keeps its
upper 6 bits (`after &&& 0xFC = before &&& 0xFC`), and every channel of
every pixel beyond the envelope (pixel index ≥ `HEADER_SIZE + p.length`,
i.e. channel index ≥ `4 * (HEADER_SIZE + p.length)`) is byte-for-byte
unchanged, low bits included. -/
theorem insert_data_frame_effect (img : StegoImage) (p : List Nat) (img2 : StegoImage)
    (h : img.insert_data p = (img2, .ok ())) :
    (∀ j, img2.data.getD j 0 &&& 0xFC = img.data.getD j 0 &&& 0xFC) ∧
    (∀ j, 4 * (HEADER_SIZE + p.length) ≤ j → img2.data.getD j 0 = img.data.getD j 0) := by
  unfold StegoImage.insert_data at h
  by_cases h0 : p.length = 0
  · rw [if_pos h0] at h; simp at h
  · rw [if_neg h0] at h
    by_cases h1 : img.avaliable < p.length
    · rw [if_pos h1] at h; simp at h
    · rw [if_neg h1] at h
      simp only [Prod.mk.injEq] at h
      obtain ⟨h2, -⟩ := h
      subst h2
      constructor
      · intro j
        exact writePixels_getD_high _ img.data j
      · intro j hj
        apply writePixels_getD_beyond
        have hlen : (natToLeBytes p.length 8 ++ natToLeBytes (calculate_hash p) 8 ++ p).length
            = 16 + p.length := by
          simp [natToLeBytes_length]; omega
        rw [hlen]
        unfold HEADER_SIZE at hj
        omega

theorem insert_data_frame_effect_witness :
    (exImg.insert_data [65]).1.data.getD 0 0 &&& 0xFC = exImg.data.getD 0 0 &&& 0xFC :=
  (insert_data_frame_effect exImg [65] (exImg.insert_data [65]).1 rfl).1 0

/-- Claim C3: `avaliable` returns `width*height - HEADER_SIZE` when that
difference is non-negative and 0 otherwise, with
`HEADER_SIZE = size_of(usize) + size_of(u64) = 16`; stated over ℤ so the
flooring at 0 is visible.  It is a total Lean function of the buffer
alone: pure, never fails, no side effects. -/
theorem avaliable_capacity (img : StegoImage) :
    (img.avaliable : Int) = max 0 ((img.width : Int) * (img.height : Int) - 16) := by
  unfold StegoImage.avaliable HEADER_SIZE
  have h : ((img.width * img.height : Nat) : Int) = (img.width : Int) * (img.height : Int) := by
    push_cast; ring
  omega

/-- Claim C4: `insert_data` with a zero-length payload fails with
`NothingToInsert` for every buffer, returning it unmodified; the check
precedes every other one. -/
theorem insert_data_rejects_empty (img : StegoImage) :
    img.insert_data [] = (img, .error .NothingToInsert) := rfl

/-- Claim C5: `insert_data` fails with `NotEnoughSpace` (buffer
unmodified) whenever the payload is longer than `avaliable()`. -/
theorem insert_data_rejects_oversized (img : StegoImage) (p : List Nat)
    (h : img.avaliable < p.length) :
    img.insert_data p = (img, .error .NotEnoughSpace) := by
  unfold StegoImage.insert_data
  rw [if_neg (by omega), if_pos h]

theorem insert_data_rejects_oversized_witness :
    exImg.insert_data [65, 66] = (exImg, .error .NotEnoughSpace) :=
  insert_data_rejects_oversized exImg [65, 66] (by decide)

theorem extract_size_err (img : StegoImage)
    (h : img.avaliable < bytesToNatLE (readBytes img.data 8)) :
    img.extract_size = .error .InvalidDataLength := by
  unfold StegoImage.extract_size
  rw [if_pos h]

theorem extract_size_ok (img : StegoImage)
    (h : ¬ img.avaliable < bytesToNatLE (readBytes img.data 8)) :
    img.extract_size = .ok (bytesToNatLE (readBytes img.data 8)) := by
  unfold StegoImage.extract_size
  rw [if_neg h]

theorem extract_data_of_size_err (img : StegoImage) (e : StegoError)
    (h16 : ¬ img.data.length / 4 < HEADER_SIZE)
    (hsz : img.extract_size = .error e) :
    img.extract_data = .error e := by
  unfold StegoImage.extract_data
  rw [if_neg h16, hsz]

theorem extract_data_of_size_ok (img : StegoImage) (n : Nat)
    (h16 : ¬ img.data.length / 4 < HEADER_SIZE)
    (hsz : img.extract_size = .ok n) :
    img.extract_data =
      (if calculate_hash (readBytes (img.data.drop (4 * HEADER_SIZE)) n) ≠
          bytesToNatLE (readBytes (img.data.drop 32) 8)
        then .error .InvalidHashCheck
        else .ok (readBytes (img.data.drop (4 * HEADER_SIZE)) n)) := by
  unfold StegoImage.extract_data
  rw [if_neg h16, hsz]
  rfl

/-- Claim C6: on a well-formed buffer with at least `HEADER_SIZE` pixels,
`extract_data` fails with `InvalidDataLength` exactly when the length
decoded little-endian from the 2 low bits of the first
`size_of::<usize>()` pixels exceeds `avaliable()`. -/
theorem extract_data_invalid_length_iff (img : StegoImage) (hwf : img.Wf)
    (hpix : HEADER_SIZE ≤ img.width * img.height) :
    (img.extract_data = .error .InvalidDataLength ↔
      img.avaliable < bytesToNatLE (readBytes img.data 8)) := by
  obtain ⟨hW, hH, hL, hB⟩ := hwf
  have hlt : ¬ img.data.length / 4 < HEADER_SIZE := by
    rw [hL]; unfold HEADER_SIZE at hpix ⊢; omega
  by_cases hc : img.avaliable < bytesToNatLE (readBytes img.data 8)
  · rw [extract_data_of_size_err img _ hlt (extract_size_err img hc)]
    simp [hc]
  · rw [extract_data_of_size_ok img _ hlt (extract_size_ok img hc)]
    constructor
    · intro habs
      split at habs <;> simp_all
    · intro habs
      omega

theorem extract_data_invalid_length_iff_witness :
    fullImg.extract_data = .error .InvalidDataLength :=
  (extract_data_invalid_length_iff fullImg (by decide) (by decide)).mpr (by decide)

/-- Claim C7: on a well-formed buffer that passes the size check
(at least `HEADER_SIZE` pixels) and the length-marker check (decoded
length ≤ `avaliable()`), `extract_data` fails with `InvalidHashCheck`
exactly when `calculate_hash` of the extracted payload bytes differs
from the checksum decoded from the header, and returns the payload on a
match.  `extract_data` takes the buffer immutably, so no call mutates
it. -/
theorem extract_data_integrity_check (img : StegoImage) (hwf : img.Wf)
    (hpix : HEADER_SIZE ≤ img.width * img.height)
    (hlen : bytesToNatLE (readBytes img.data 8) ≤ img.avaliable) :
    (img.extract_data = .error .InvalidHashCheck ↔
      calculate_hash (readBytes (img.data.drop (4 * HEADER_SIZE))
          (bytesToNatLE (readBytes img.data 8))) ≠
        bytesToNatLE (readBytes (img.data.drop 32) 8)) ∧
    (calculate_hash (readBytes (img.data.drop (4 * HEADER_SIZE))
          (bytesToNatLE (readBytes img.data 8))) =
        bytesToNatLE (readBytes (img.data.drop 32) 8) →
      img.extract_data = .ok (readBytes (img.data.drop (4 * HEADER_SIZE))
          (bytesToNatLE (readBytes img.data 8)))) := by
  obtain ⟨hW, hH, hL, hB⟩ := hwf
  have hlt : ¬ img.data.length / 4 < HEADER_SIZE := by
    rw [hL]; unfold HEADER_SIZE at hpix ⊢; omega
  rw [extract_data_of_size_ok img _ hlt (extract_size_ok img (by omega))]
  by_cases hh : calculate_hash (readBytes (img.data.drop (4 * HEADER_SIZE))
      (bytesToNatLE (readBytes img.data 8))) =
      bytesToNatLE (readBytes (img.data.drop 32) 8)
  · rw [if_neg (by simp [hh])]
    simp [hh]
  · rw [if_pos hh]
    simp [hh]

theorem extract_data_integrity_check_witness :
    stegoImg.extract_data = .ok (readBytes (stegoImg.data.drop (4 * HEADER_SIZE))
      (bytesToNatLE (readBytes stegoImg.data 8))) :=
  (extract_data_integrity_check stegoImg (by decide) (by decide) (by decide)).2 (by decide)

/-- Claim C8: whenever `insert_data` returns an error, the buffer it
hands back is the one it was given, byte for byte: both `return Err`
paths precede every write. -/
theorem insert_data_atomic_on_error (img : StegoImage) (p : List Nat)
    (img2 : StegoImage) (e : StegoError) (h : img.insert_data p = (img2, .error e)) :
    img2 = img := by
  unfold StegoImage.insert_data at h
  by_cases h0 : p.length = 0
  · rw [if_pos h0] at h
    simp only [Prod.mk.injEq] at h
    exact h.1.symm
  · rw [if_neg h0] at h
    by_cases h1 : img.avaliable < p.length
    · rw [if_pos h1] at h
      simp only [Prod.mk.injEq] at h
      exact h.1.symm
    · rw [if_neg h1] at h
      simp at h

theorem insert_data_atomic_on_error_witness : exImg = exImg :=
  insert_data_atomic_on_error exImg [65, 66] exImg .NotEnoughSpace (by decide)

/-- Claim C9 (the claim as the spec states it): the five `StegoError`
variants should display five distinct messages.  The code violates it:
this theorem evaluates `Display` at the failing input and shows that
`InvalidHashCheck` renders exactly the `TooSmallImage` text, so only
four distinct strings exist — the copy-paste slip the spec's §9 open
question points out. -/
theorem display_message_duplicate :
    StegoError.message .InvalidHashCheck = StegoError.message .TooSmallImage := rfl

/-- Claim C10: the concrete 16-pixel buffer `emptyEnvImg` is well-formed,
its low bits encode length 0 and the checksum of the empty byte string,
and `extract_data` succeeds on it with the empty payload — an output no
successful `insert_data` can produce, because `insert_data` rejects the
empty payload on every buffer. -/
theorem extract_data_empty_recoverable :
    emptyEnvImg.Wf ∧ emptyEnvImg.extract_data = .ok [] ∧
      ∀ img : StegoImage, (img.insert_data []).2 = .error .NothingToInsert :=
  ⟨by decide, by decide, fun img => rfl⟩
